import Mathlib

/-!
Verification development for the `DictTuple` layered-mapping structure
(`src/DictTuple.py`).  A `DictTuple` owns an ordered list `dt` of Python
dictionaries ("layers"); later layers shadow earlier ones on lookup.

Python dictionaries are modelled as association lists `List (K × V)` whose
lookup returns the value of the first entry with the given key (a real
Python dict has unique keys, for which this coincides with dict lookup);
a `DictTuple` state is the list of its layers.  Errors (`AssertionError`
on construction, `KeyError` on lookup/delete, `TypeError` on `+`) are
modelled by an explicit error type.
-/

set_option autoImplicit false

/-- The error kinds raised by `DictTuple`: `AssertionError` during
construction, `KeyError` from `__getitem__` / `__delitem__`, and
`TypeError` from `__add__` / `__radd__`. -/
inductive Err : Type where
  | construction : Err
  | keyError : Err
  | typeError : Err
deriving DecidableEq, Repr

instance {ε α : Type} [DecidableEq ε] [DecidableEq α] : DecidableEq (Except ε α) := fun x y =>
  match x, y with
  | .error e, .error f => decidable_of_iff (e = f) (by simp)
  | .error _, .ok _ => isFalse (by simp)
  | .ok _, .error _ => isFalse (by simp)
  | .ok a, .ok b => decidable_of_iff (a = b) (by simp)

/-- A Python dictionary, as an association list. -/
abbrev Dict (K V : Type) : Type := List (K × V)

variable {K V : Type} [DecidableEq K] [DecidableEq V]

/-- `key in d` for a Python dict. -/
def Dict.hasKey : Dict K V → K → Bool
  | [], _ => false
  | p :: rest, k => if p.1 = k then true else Dict.hasKey rest k

/-- `d[key]` for a Python dict, as an `Option` (first entry wins). -/
def Dict.get? : Dict K V → K → Option V
  | [], _ => none
  | p :: rest, k => if p.1 = k then some p.2 else Dict.get? rest k

/-- `d[key] = value` for a Python dict: overwrite the entry in place if the
key is present, otherwise append the new entry at the end. -/
def Dict.set : Dict K V → K → V → Dict K V
  | [], k, v => [(k, v)]
  | p :: rest, k, v => if p.1 = k then (k, v) :: rest else p :: Dict.set rest k v

/-- `del d[key]` for a Python dict: drop the entries with that key. -/
def Dict.erase (d : Dict K V) (k : K) : Dict K V :=
  d.filter fun p => !decide (p.1 = k)

/-- `d.keys()` for a Python dict. -/
def Dict.keys (d : Dict K V) : List K :=
  d.map Prod.fst

/-- A constructor argument of `DictTuple.__init__`: either a dictionary, or
some non-dict Python object of which only the truthiness matters (the
constructor filters arguments by truthiness before the `isinstance` check). -/
inductive Arg (K V : Type) : Type where
  | dict (d : Dict K V) : Arg K V
  | nonDict (truthy : Bool) : Arg K V
deriving DecidableEq

/-- Python truthiness of a constructor argument (`if arg`): a dict is truthy
iff non-empty; a non-dict object carries its own truthiness. -/
def Arg.truthy : Arg K V → Bool
  | .dict d => !d.isEmpty
  | .nonDict t => t

/-- `isinstance(arg, dict)`. -/
def Arg.isDict : Arg K V → Bool
  | .dict _ => true
  | .nonDict _ => false

/-- The underlying dict of an argument (meaningful after `isDict`). -/
def Arg.asDict : Arg K V → Dict K V
  | .dict d => d
  | .nonDict _ => []

namespace DictTuple

/-- `DictTuple.__init__`: raise if no arguments; keep only the truthy
arguments (this drops empty dicts); raise if nothing remains; raise if a
remaining argument is not a dict; otherwise store the filtered list. -/
def init (args : List (Arg K V)) : Except Err (List (Dict K V)) :=
  if args.isEmpty then .error .construction
  else
    let dt := args.filter Arg.truthy
    if dt.isEmpty then .error .construction
    else if dt.all Arg.isDict then .ok (dt.map Arg.asDict)
    else .error .construction

/-- `DictTuple.__len__`: the number of distinct keys across all layers. -/
def lenKeys (dt : List (Dict K V)) : Nat :=
  ((dt.map Dict.keys).flatten).toFinset.card

/-- `DictTuple.__bool__`: `len(self.dt) > 1`. -/
def toBool (dt : List (Dict K V)) : Bool :=
  decide (1 < dt.length)

/-- `DictTuple.__contains__`: the key is in some layer. -/
def containsKey (dt : List (Dict K V)) (k : K) : Bool :=
  dt.any fun d => Dict.hasKey d k

/-- The loop of `DictTuple.__getitem__` over the reversed layer list:
return `d[key]` from the first dict containing the key, else `KeyError`. -/
def getRev : List (Dict K V) → K → Except Err V
  | [], _ => .error .keyError
  | d :: rest, k =>
    match Dict.get? d k with
    | some v => .ok v
    | none => getRev rest k

/-- `DictTuple.__getitem__`: scan layers from latest to oldest. -/
def getItem (dt : List (Dict K V)) (k : K) : Except Err V :=
  getRev dt.reverse k

/-- The loop of `DictTuple.__setitem__` over the reversed layer list:
overwrite the key in the first dict (from the end) containing it;
`none` when no layer contains the key. -/
def setRev : List (Dict K V) → K → V → Option (List (Dict K V))
  | [], _, _ => none
  | d :: rest, k, v =>
    if Dict.hasKey d k then some (Dict.set d k v :: rest)
    else (setRev rest k v).map (d :: ·)

/-- `DictTuple.__setitem__`: update the latest layer holding the key, or
append a new single-entry layer when no layer holds it. -/
def setItem (dt : List (Dict K V)) (k : K) (v : V) : List (Dict K V) :=
  match setRev dt.reverse k v with
  | some r => r.reverse
  | none => dt ++ [[(k, v)]]

/-- The loop of `DictTuple.__delitem__`: erase the key from every layer
holding it, recording whether any layer did. -/
def delLoop : List (Dict K V) → K → List (Dict K V) × Bool
  | [], _ => ([], false)
  | d :: rest, k =>
    let r := delLoop rest k
    if Dict.hasKey d k then (Dict.erase d k :: r.1, true)
    else (d :: r.1, r.2)

/-- `DictTuple.__delitem__`: the resulting layer list together with the
raised error, `KeyError` when no layer contained the key. -/
def delItem (dt : List (Dict K V)) (k : K) : List (Dict K V) × Option Err :=
  let r := delLoop dt k
  if r.2 then (r.1, none) else (r.1, some .keyError)

/-- `DictTuple.__call__`: the values for the key from every layer holding
it, in layer order (oldest first). -/
def callAll (dt : List (Dict K V)) (k : K) : List V :=
  dt.filterMap fun d => Dict.get? d k

/-- The distinct keys of all layers, as one list (used by `__len__`,
`__iter__` and `__eq__`, which each build this set of keys). -/
def allKeysList (dt : List (Dict K V)) : List K :=
  (dt.map Dict.keys).flatten

/-- `DictTuple.__iter__`: the distinct keys of all layers, sorted
ascending. -/
def iterKeys [LinearOrder K] (dt : List (Dict K V)) : List K :=
  List.insertionSort (· ≤ ·) (allKeysList dt).dedup

/-- The `isinstance(other, dict)` branch of `DictTuple.__eq__`: every key
of every layer is a key of `other`, and the shadowed value for each such
key equals `other`'s value (a failing lookup compares unequal). -/
def eqDict (dt : List (Dict K V)) (other : Dict K V) : Bool :=
  ((allKeysList dt).all fun k => Dict.hasKey other k) &&
    ((allKeysList dt).all fun k =>
      match getItem dt k, Dict.get? other k with
      | .ok v1, some v2 => decide (v1 = v2)
      | _, _ => false)

/-- The `isinstance(other, dict)` branch of `DictTuple.__add__`: an empty
dict returns `self` unchanged; otherwise a new `DictTuple` is constructed
from `self`'s layers followed by `other`. -/
def addDict (dt : List (Dict K V)) (other : Dict K V) : Except Err (List (Dict K V)) :=
  if other.isEmpty then .ok dt
  else init ((dt ++ [other]).map Arg.dict)

end DictTuple

set_option linter.unusedSectionVars false

/-! ### Basic lemmas about the dict operations -/

theorem hasKey_iff_get?_isSome (d : Dict K V) (k : K) :
    Dict.hasKey d k = true ↔ ∃ v, Dict.get? d k = some v := by
  induction d with
  | nil => simp [Dict.hasKey, Dict.get?]
  | cons p rest ih =>
    by_cases h : p.1 = k <;> simp [Dict.hasKey, Dict.get?, h, ih]

theorem get?_eq_none_of_not_hasKey {d : Dict K V} {k : K}
    (h : Dict.hasKey d k = false) : Dict.get? d k = none := by
  cases hg : Dict.get? d k with
  | none => rfl
  | some v =>
    have : Dict.hasKey d k = true := (hasKey_iff_get?_isSome d k).mpr ⟨v, hg⟩
    rw [this] at h; cases h

theorem hasKey_eq_false_iff (d : Dict K V) (k : K) :
    Dict.hasKey d k = false ↔ ∀ p ∈ d, p.1 ≠ k := by
  induction d with
  | nil => simp [Dict.hasKey]
  | cons p rest ih =>
    by_cases h : p.1 = k <;> simp [Dict.hasKey, h, ih]

theorem hasKey_iff_mem_keys (d : Dict K V) (k : K) :
    Dict.hasKey d k = true ↔ k ∈ Dict.keys d := by
  induction d with
  | nil => simp [Dict.hasKey, Dict.keys]
  | cons p rest ih =>
    simp only [Dict.keys, List.map_cons, List.mem_cons]
    by_cases h : p.1 = k
    · simp [Dict.hasKey, h]
    · rw [Dict.hasKey, if_neg h, ih, Dict.keys]
      constructor
      · exact Or.inr
      · rintro (rfl | hm)
        · exact absurd rfl h
        · exact hm

theorem get?_set_self (d : Dict K V) (k : K) (v : V) :
    Dict.get? (Dict.set d k v) k = some v := by
  induction d with
  | nil => simp [Dict.set, Dict.get?]
  | cons p rest ih =>
    by_cases h : p.1 = k <;> simp [Dict.set, Dict.get?, h, ih]

theorem get?_set_ne (d : Dict K V) {k k' : K} (v : V) (hne : k' ≠ k) :
    Dict.get? (Dict.set d k v) k' = Dict.get? d k' := by
  have hne2 : ¬ k = k' := fun hh => hne hh.symm
  induction d with
  | nil => simp [Dict.set, Dict.get?, hne2]
  | cons p rest ih =>
    by_cases h : p.1 = k
    · simp [Dict.set, Dict.get?, h, hne2]
    · by_cases h' : p.1 = k' <;> simp [Dict.set, Dict.get?, h, h', ih, hne]

theorem hasKey_erase (d : Dict K V) (k : K) :
    Dict.hasKey (Dict.erase d k) k = false := by
  rw [hasKey_eq_false_iff]
  intro p hp
  rw [Dict.erase, List.mem_filter] at hp
  simpa using hp.2

theorem erase_eq_self_of_not_hasKey {d : Dict K V} {k : K}
    (h : Dict.hasKey d k = false) : Dict.erase d k = d := by
  rw [Dict.erase, List.filter_eq_self]
  intro p hp
  have := (hasKey_eq_false_iff d k).mp h p hp
  simpa using this

theorem get?_erase_ne (d : Dict K V) {k k' : K} (hne : k' ≠ k) :
    Dict.get? (Dict.erase d k) k' = Dict.get? d k' := by
  induction d with
  | nil => rfl
  | cons p rest ih =>
    by_cases hp : p.1 = k
    · have hp' : ¬ p.1 = k' := fun hh => hne (hh.symm.trans hp)
      have hne2 : ¬ k = k' := fun hh => hne hh.symm
      simp only [Dict.erase, List.filter_cons] at ih ⊢
      simp [hp, hp', hne2, Dict.get?, ih]
    · simp only [Dict.erase, List.filter_cons] at ih ⊢
      by_cases h' : p.1 = k' <;> simp [hp, h', Dict.get?, ih, hne]

/-! ### Lemmas about the DictTuple operations -/

namespace DictTuple

theorem containsKey_eq_false_iff (dt : List (Dict K V)) (k : K) :
    containsKey dt k = false ↔ ∀ d ∈ dt, Dict.hasKey d k = false := by
  simp [containsKey, List.any_eq_false]

theorem containsKey_eq_true_iff (dt : List (Dict K V)) (k : K) :
    containsKey dt k = true ↔ ∃ d ∈ dt, Dict.hasKey d k = true := by
  simp [containsKey, List.any_eq_true]

theorem containsKey_reverse (dt : List (Dict K V)) (k : K) :
    containsKey dt.reverse k = containsKey dt k := by
  simp [containsKey, List.any_eq_true]

theorem mem_allKeysList (dt : List (Dict K V)) (k : K) :
    k ∈ allKeysList dt ↔ containsKey dt k = true := by
  simp only [allKeysList, List.mem_flatten, List.mem_map, containsKey_eq_true_iff]
  constructor
  · rintro ⟨l, ⟨d, hd, rfl⟩, hk⟩
    exact ⟨d, hd, (hasKey_iff_mem_keys d k).mpr hk⟩
  · rintro ⟨d, hd, h⟩
    exact ⟨Dict.keys d, ⟨d, hd, rfl⟩, (hasKey_iff_mem_keys d k).mp h⟩

theorem reverse_middle (l1 l2 : List (Dict K V)) (d : Dict K V) :
    (l1 ++ d :: l2).reverse = l2.reverse ++ d :: l1.reverse := by
  simp

theorem getRev_skip {l1 : List (Dict K V)} {k : K}
    (h : ∀ d ∈ l1, Dict.hasKey d k = false) (l2 : List (Dict K V)) :
    getRev (l1 ++ l2) k = getRev l2 k := by
  induction l1 with
  | nil => rfl
  | cons d rest ih =>
    have hd : Dict.get? d k = none :=
      get?_eq_none_of_not_hasKey (h d (List.mem_cons_self d rest))
    rw [List.cons_append, getRev, hd]
    exact ih fun e he => h e (List.mem_cons_of_mem d he)

theorem getRev_eq_error {l : List (Dict K V)} {k : K}
    (h : ∀ d ∈ l, Dict.hasKey d k = false) :
    getRev l k = Except.error Err.keyError := by
  have := getRev_skip h ([] : List (Dict K V))
  simpa using this

theorem getRev_cons_of_get {l : List (Dict K V)} {d : Dict K V} {k : K} {v : V}
    (h : Dict.get? d k = some v) : getRev (d :: l) k = Except.ok v := by
  rw [getRev, h]

theorem getRev_isOk_of_hasKey {l : List (Dict K V)} {k : K}
    (h : ∃ d ∈ l, Dict.hasKey d k = true) : ∃ v, getRev l k = Except.ok v := by
  induction l with
  | nil => simp at h
  | cons d rest ih =>
    cases hg : Dict.get? d k with
    | some v => exact ⟨v, by rw [getRev, hg]⟩
    | none =>
      obtain ⟨e, he, hk⟩ := h
      rcases List.mem_cons.mp he with rfl | he'
      · obtain ⟨v, hv⟩ := (hasKey_iff_get?_isSome e k).mp hk
        rw [hv] at hg; cases hg
      · obtain ⟨v, hv⟩ := ih ⟨e, he', hk⟩
        exact ⟨v, by rw [getRev, hg]; exact hv⟩

theorem getItem_isOk_of_containsKey {dt : List (Dict K V)} {k : K}
    (h : containsKey dt k = true) : ∃ v, getItem dt k = Except.ok v := by
  apply getRev_isOk_of_hasKey
  have := (containsKey_eq_true_iff dt.reverse k).mp (by rw [containsKey_reverse]; exact h)
  exact this

theorem getItem_eq_error_of_not_containsKey {dt : List (Dict K V)} {k : K}
    (h : containsKey dt k = false) : getItem dt k = Except.error Err.keyError := by
  apply getRev_eq_error
  intro d hd
  exact (containsKey_eq_false_iff dt k).mp h d (List.mem_reverse.mp hd)

theorem containsKey_of_getItem_ok {dt : List (Dict K V)} {k : K} {v : V}
    (h : getItem dt k = Except.ok v) : containsKey dt k = true := by
  cases hc : containsKey dt k with
  | true => rfl
  | false => rw [getItem_eq_error_of_not_containsKey hc] at h; cases h

end DictTuple

namespace DictTuple

theorem setRev_eq_none {l : List (Dict K V)} {k : K} (v : V)
    (h : ∀ d ∈ l, Dict.hasKey d k = false) : setRev l k v = none := by
  induction l with
  | nil => rfl
  | cons d rest ih =>
    rw [setRev, if_neg (by rw [h d (List.mem_cons_self d rest)]; simp),
      ih fun e he => h e (List.mem_cons_of_mem d he)]
    rfl

theorem setRev_found {l1 l2 : List (Dict K V)} {d : Dict K V} {k : K} (v : V)
    (h1 : ∀ e ∈ l1, Dict.hasKey e k = false) (hd : Dict.hasKey d k = true) :
    setRev (l1 ++ d :: l2) k v = some (l1 ++ Dict.set d k v :: l2) := by
  induction l1 with
  | nil => rw [List.nil_append, setRev, if_pos hd, List.nil_append]
  | cons e rest ih =>
    rw [List.cons_append, setRev,
      if_neg (by rw [h1 e (List.mem_cons_self e rest)]; simp),
      ih fun x hx => h1 x (List.mem_cons_of_mem e hx)]
    rfl

theorem delLoop_fst (dt : List (Dict K V)) (k : K) :
    (delLoop dt k).1 = dt.map fun d => Dict.erase d k := by
  induction dt with
  | nil => rfl
  | cons d rest ih =>
    rw [delLoop]
    by_cases h : Dict.hasKey d k = true
    · simp only [if_pos h, List.map_cons, ih]
    · have h' : Dict.hasKey d k = false := by
        cases hk : Dict.hasKey d k
        · rfl
        · exact absurd hk h
      simp only [if_neg h, List.map_cons, ih, erase_eq_self_of_not_hasKey h']

theorem delLoop_snd (dt : List (Dict K V)) (k : K) :
    (delLoop dt k).2 = containsKey dt k := by
  induction dt with
  | nil => rfl
  | cons d rest ih =>
    rw [delLoop]
    by_cases h : Dict.hasKey d k = true
    · simp [containsKey, if_pos h, h]
    · simp only [if_neg h]
      simp only [containsKey, List.any_cons] at ih ⊢
      rw [ih]
      cases hk : Dict.hasKey d k
      · simp
      · exact absurd hk h

end DictTuple

namespace DictTuple

theorem setItem_eq_append {dt : List (Dict K V)} {k : K} (v : V)
    (h : containsKey dt k = false) : setItem dt k v = dt ++ [[(k, v)]] := by
  have hnone : setRev dt.reverse k v = none :=
    setRev_eq_none v fun e he =>
      (containsKey_eq_false_iff dt k).mp h e (List.mem_reverse.mp he)
  rw [setItem, hnone]

end DictTuple

/-! ### Claim theorems -/

open DictTuple

/-- C1: for every DictTuple `d` and key `k`, the shadowed get `d[k]` scans
layers from last (latest) to first (oldest) and returns the value stored for
`k` in the most recently added layer that contains `k`; if no layer of `d`
contains `k`, `d[k]` raises a `KeyError`. -/
theorem getItem_shadowed_spec (dt : List (Dict K V)) (k : K) :
    (containsKey dt k = false → getItem dt k = Except.error Err.keyError) ∧
    (∀ pre post : List (Dict K V), ∀ d : Dict K V, ∀ v : V,
      dt = pre ++ d :: post →
      (∀ e ∈ post, Dict.hasKey e k = false) →
      Dict.get? d k = some v →
      getItem dt k = Except.ok v) := by
  refine ⟨getItem_eq_error_of_not_containsKey, ?_⟩
  rintro pre post d v rfl hpost hget
  rw [getItem, reverse_middle,
    getRev_skip (fun e he => hpost e (List.mem_reverse.mp he)),
    getRev_cons_of_get hget]

/-- Witness for C1 at concrete inputs: with layers `[{0: 1}, {0: 2}]` the
latest layer wins, and an absent key raises `KeyError`. -/
theorem getItem_shadowed_spec_witness :
    getItem [[(0, 1)], [(0, 2)]] (0 : Nat) = Except.ok (2 : Nat) ∧
    getItem [[((0 : Nat), (1 : Nat))]] 5 = Except.error Err.keyError :=
  ⟨(getItem_shadowed_spec [[(0, 1)], [(0, 2)]] 0).2 [[(0, 1)]] [] [(0, 2)] 2
      rfl (by simp) rfl,
   (getItem_shadowed_spec [[(0, 1)]] 5).1 (by decide)⟩

/-- C2: for every DictTuple `d`, key `k` and value `v`: if some layer of `d`
contains `k`, then `d[k] = v` overwrites `k`'s value in the most recent
layer containing `k` and leaves every other layer unchanged; if no layer
contains `k`, it appends a new single-entry layer `{k: v}` at the end,
growing the layer count by exactly one. -/
theorem setItem_spec (dt : List (Dict K V)) (k : K) (v : V) :
    (containsKey dt k = false →
      setItem dt k v = dt ++ [[(k, v)]] ∧
      (setItem dt k v).length = dt.length + 1) ∧
    (∀ pre post : List (Dict K V), ∀ d : Dict K V,
      dt = pre ++ d :: post →
      Dict.hasKey d k = true →
      (∀ e ∈ post, Dict.hasKey e k = false) →
      setItem dt k v = pre ++ Dict.set d k v :: post ∧
      Dict.get? (Dict.set d k v) k = some v ∧
      (∀ k', k' ≠ k → Dict.get? (Dict.set d k v) k' = Dict.get? d k')) := by
  constructor
  · intro h
    refine ⟨setItem_eq_append v h, ?_⟩
    rw [setItem_eq_append v h]
    simp
  · rintro pre post d rfl hd hpost
    have hfound :
        setRev (pre ++ d :: post).reverse k v =
          some (post.reverse ++ Dict.set d k v :: pre.reverse) := by
      rw [reverse_middle]
      exact setRev_found v (fun e he => hpost e (List.mem_reverse.mp he)) hd
    refine ⟨?_, get?_set_self d k v, fun k' hk' => get?_set_ne d v hk'⟩
    rw [setItem, hfound]
    simp

/-- Witness for C2 at concrete inputs: with layers
`[{0: 1}, {0: 2}, {1: 5}]`, setting key `0` rewrites only the middle layer;
setting the fresh key `7` appends a new single-entry layer. -/
theorem setItem_spec_witness :
    setItem [[(0, 1)], [(0, 2)], [(1, 5)]] (0 : Nat) (9 : Nat) =
      [[(0, 1)], [(0, 9)], [(1, 5)]] ∧
    setItem [[((0 : Nat), (1 : Nat))]] 7 9 = [[(0, 1)], [(7, 9)]] := by
  constructor
  · have h := (setItem_spec [[(0, 1)], [(0, 2)], [(1, 5)]] (0 : Nat) (9 : Nat)).2
      [[(0, 1)]] [[(1, 5)]] [(0, 2)] rfl (by decide) (by decide)
    exact h.1
  · have h := (setItem_spec [[((0 : Nat), (1 : Nat))]] 7 9).1 (by decide)
    exact h.1

/-- C3: deleting key `k` removes `k` from every layer that contains it, and
no layer is ever removed from the layer list even if it becomes empty; if no
layer contains `k`, the delete raises `KeyError` and the layers are exactly
as they were before the call. -/
theorem delItem_spec (dt : List (Dict K V)) (k : K) :
    (containsKey dt k = true →
      delItem dt k = (dt.map fun d => Dict.erase d k, none) ∧
      (delItem dt k).1.length = dt.length ∧
      ∀ d ∈ (delItem dt k).1, Dict.hasKey d k = false) ∧
    (containsKey dt k = false →
      delItem dt k = (dt, some Err.keyError)) := by
  constructor
  · intro h
    have heq : delItem dt k = (dt.map fun d => Dict.erase d k, none) := by
      rw [delItem]
      simp only [delLoop_snd, h, if_pos, delLoop_fst]
    refine ⟨heq, ?_, ?_⟩
    · rw [heq]; simp
    · rw [heq]
      rintro d hd
      obtain ⟨e, _, rfl⟩ := List.mem_map.mp hd
      exact hasKey_erase e k
  · intro h
    have hmap : (dt.map fun d => Dict.erase d k) = dt := by
      have hcongr : (dt.map fun d => Dict.erase d k) = dt.map id :=
        List.map_congr_left fun d hd =>
          erase_eq_self_of_not_hasKey ((containsKey_eq_false_iff dt k).mp h d hd)
      rw [hcongr, List.map_id]
    rw [delItem]
    simp only [delLoop_snd, h, delLoop_fst, hmap]
    rfl

/-- Witness for C3 at concrete inputs: deleting key `0` from layers
`[{0: 1, 1: 2}, {0: 3}]` empties the second layer but keeps both layers;
deleting an absent key raises `KeyError` with the layers unchanged. -/
theorem delItem_spec_witness :
    delItem [[(0, 1), (1, 2)], [(0, 3)]] (0 : Nat) =
      ([[(1, 2)], ([] : Dict Nat Nat)], none) ∧
    delItem [[((0 : Nat), (1 : Nat))]] 5 = ([[(0, 1)]], some Err.keyError) :=
  ⟨((delItem_spec [[(0, 1), (1, 2)], [(0, 3)]] (0 : Nat)).1 (by decide)).1,
   (delItem_spec [[((0 : Nat), (1 : Nat))]] 5).2 (by decide)⟩

/-- Evaluating `DictTuple.__init__` on all-dict arguments whose non-empty
part is non-empty: construction succeeds and stores exactly the filtered,
order-preserved list of argument dicts. -/
theorem init_dicts {ds : List (Dict K V)} (hne : ds.filter (fun d => !d.isEmpty) ≠ []) :
    init (ds.map Arg.dict) = Except.ok (ds.filter fun d => !d.isEmpty) := by
  have hfilter : (ds.map Arg.dict).filter Arg.truthy =
      (ds.filter fun d => !d.isEmpty).map Arg.dict := by
    rw [List.filter_map]
    rfl
  have hargsne : ¬ (ds.map Arg.dict).isEmpty = true := by
    rw [List.isEmpty_iff, List.map_eq_nil_iff]
    rintro rfl
    exact hne rfl
  have hfne : ¬ ((ds.map Arg.dict).filter Arg.truthy).isEmpty = true := by
    rw [hfilter, List.isEmpty_iff, List.map_eq_nil_iff]
    exact hne
  have hall : ((ds.map Arg.dict).filter Arg.truthy).all Arg.isDict = true := by
    rw [hfilter, List.all_eq_true]
    intro a ha
    obtain ⟨d, _, rfl⟩ := List.mem_map.mp ha
    rfl
  have hcomp : (Arg.asDict ∘ Arg.dict : Dict K V → Dict K V) = id := rfl
  rw [init, if_neg hargsne]
  simp only [hfilter] at hfne hall ⊢
  rw [if_neg hfne, if_pos hall, List.map_map, hcomp, List.map_id]

/-- C4: constructing a DictTuple with zero arguments raises a construction
error; empty mappings among the arguments are filtered out, and a
construction error is raised if the filtered result is empty; a construction
error is raised if any remaining (post-filter) argument is not a mapping; on
success the stored layer list is exactly the filtered, order-preserved list
of the argument mappings. -/
theorem init_spec :
    (init ([] : List (Arg K V)) = Except.error Err.construction) ∧
    (∀ args : List (Arg K V),
      (args.filter Arg.truthy = [] → init args = Except.error Err.construction) ∧
      ((∃ a ∈ args.filter Arg.truthy, a.isDict = false) →
        init args = Except.error Err.construction) ∧
      (∀ ds : List (Dict K V), args = ds.map Arg.dict →
        ds.filter (fun d => !d.isEmpty) ≠ [] →
        init args = Except.ok (ds.filter fun d => !d.isEmpty))) := by
  refine ⟨rfl, fun args => ⟨?_, ?_, ?_⟩⟩
  · intro h
    by_cases ha : args.isEmpty
    · rw [init, if_pos ha]
    · rw [init, if_neg ha]
      simp only [h, List.isEmpty_nil, if_pos]
  · rintro ⟨a, ha, hnd⟩
    have hne : ¬ args.isEmpty = true := by
      intro he
      rw [List.isEmpty_iff] at he
      subst he
      simp at ha
    have hfne : ¬ (args.filter Arg.truthy).isEmpty = true := by
      rw [List.isEmpty_iff]
      exact fun h => List.ne_nil_of_mem ha h
    have hall : ¬ (args.filter Arg.truthy).all Arg.isDict = true := by
      rw [List.all_eq_true]
      intro h
      rw [h a ha] at hnd
      cases hnd
    rw [init, if_neg hne]
    simp only [if_neg hfne, if_neg hall]
  · rintro ds rfl hne
    exact init_dicts hne

/-- Witness for C4 at concrete inputs: an all-empty argument list, a truthy
non-dict argument, and a successful construction that drops the empty dict. -/
theorem init_spec_witness :
    init [Arg.dict ([] : Dict Nat Nat)] = Except.error Err.construction ∧
    init [Arg.dict [((0 : Nat), (1 : Nat))], Arg.nonDict true] =
      Except.error Err.construction ∧
    init [Arg.dict [((0 : Nat), (1 : Nat))], Arg.dict [], Arg.dict [(1, 2)]] =
      Except.ok [[(0, 1)], [(1, 2)]] :=
  ⟨((init_spec.2 [Arg.dict ([] : Dict Nat Nat)]).1 (by decide)),
   ((init_spec.2 [Arg.dict [((0 : Nat), (1 : Nat))], Arg.nonDict true]).2.1
     ⟨Arg.nonDict true, by decide, rfl⟩),
   ((init_spec.2 [Arg.dict [((0 : Nat), (1 : Nat))], Arg.dict [], Arg.dict [(1, 2)]]).2.2
     [[(0, 1)], [], [(1, 2)]] rfl (by decide))⟩

/-- C6: `bool(d)` is true if and only if `d` holds more than one layer; an
instance with exactly one (even non-empty) layer is falsy, and the result
depends only on the number of layers, not on the keys they hold. -/
theorem toBool_spec (dt : List (Dict K V)) :
    (toBool dt = true ↔ 1 < dt.length) ∧
    (∀ d : Dict K V, toBool [d] = false) ∧
    (∀ dt' : List (Dict K V), dt.length = dt'.length → toBool dt = toBool dt') := by
  refine ⟨by simp [DictTuple.toBool], fun d => by simp [DictTuple.toBool], fun dt' h => by simp [DictTuple.toBool, h]⟩

/-- Witness for C6 at concrete inputs: one non-empty layer is falsy; two
layers are truthy. -/
theorem toBool_spec_witness :
    toBool [[((0 : Nat), (1 : Nat))]] = false ∧
    toBool [[((0 : Nat), (1 : Nat))], [(1, 2)]] = true :=
  ⟨(toBool_spec [[((0 : Nat), (1 : Nat))]]).2.1 [(0, 1)],
   (toBool_spec [[((0 : Nat), (1 : Nat))], [(1, 2)]]).1.mpr (by decide)⟩

/-- C7 counterexample: for the two-layer DictTuple `[{0: 1}, {1: 2}]` and
the absent key `2`, setting the key appends a layer but `bool` stays `true`:
the boolean-emptiness result does NOT flip, contradicting the claim. -/
theorem setItem_toBool_flip_cex :
    containsKey [[((0 : Nat), (1 : Nat))], [(1, 2)]] 2 = false ∧
    toBool (setItem [[((0 : Nat), (1 : Nat))], [(1, 2)]] 2 3) =
      toBool [[((0 : Nat), (1 : Nat))], [(1, 2)]] := by
  decide

/-- C7 amended: for a key absent from all layers, the set operation appends
a new single-key layer, and the boolean-emptiness result flips if and only
if the DictTuple held exactly one layer before the set (a falsy one-layer
instance becomes truthy; an already-truthy instance stays truthy). -/
theorem setItem_toBool_flip (dt : List (Dict K V)) (k : K) (v : V)
    (h : containsKey dt k = false) :
    setItem dt k v = dt ++ [[(k, v)]] ∧
    (toBool (setItem dt k v) ≠ toBool dt ↔ dt.length = 1) := by
  refine ⟨setItem_eq_append v h, ?_⟩
  rw [setItem_eq_append v h]
  simp only [DictTuple.toBool, List.length_append, List.length_cons, List.length_nil]
  by_cases h1 : dt.length = 1
  · rw [h1]
    simp
  · have hiff : (1 < dt.length + (0 + 1)) ↔ (1 < dt.length) := by omega
    rw [decide_eq_decide.mpr hiff]
    · simp [h1]
    · exact inferInstance

/-- Witness for C7 (amended) at a concrete input: setting a fresh key on a
one-layer DictTuple flips its boolean from false to true. -/
theorem setItem_toBool_flip_witness :
    toBool (setItem [[((0 : Nat), (1 : Nat))]] 7 9) ≠ toBool [[((0 : Nat), (1 : Nat))]] :=
  (setItem_toBool_flip [[((0 : Nat), (1 : Nat))]] 7 9 (by decide)).2.mpr (by decide)

/-- C8 counterexample: deleting key `0` from `DictTuple({0: 1}, {1: 2})`
leaves an empty first layer; adding the non-empty dict `{2: 3}` then
re-runs the constructor, whose truthiness filter DROPS the empty layer, so
the result is NOT `d`'s layers followed by the new dict as the claim
states. -/
theorem addDict_keeps_layers_cex :
    (delItem [[((0 : Nat), (1 : Nat))], [(1, 2)]] 0).1 = [([] : Dict Nat Nat), [(1, 2)]] ∧
    addDict [([] : Dict Nat Nat), [(1, 2)]] [(2, 3)] = Except.ok [[(1, 2)], [(2, 3)]] ∧
    (Except.ok [[(1, 2)], [(2, 3)]] : Except Err (List (Dict Nat Nat))) ≠
      Except.ok ([([] : Dict Nat Nat), [(1, 2)]] ++ [[(2, 3)]]) := by
  decide

/-- C8 amended: for a DictTuple `d` and a plain dict `m`: if `m` is empty,
`d + m` returns `d` itself unchanged; if `m` is non-empty, `d + m` returns
a new DictTuple whose layer list is `d`'s NON-EMPTY layers, in order,
followed by `m` as one additional layer — layers of `d` that have become
empty (e.g. through deletes) are dropped by the constructor's truthiness
filter. -/
theorem addDict_spec (dt : List (Dict K V)) (m : Dict K V) :
    (m.isEmpty = true → addDict dt m = Except.ok dt) ∧
    (m.isEmpty = false →
      addDict dt m = Except.ok ((dt.filter fun d => !d.isEmpty) ++ [m])) := by
  constructor
  · intro h
    rw [addDict, if_pos h]
  · intro h
    have hfapp : (dt ++ [m]).filter (fun d => !d.isEmpty) =
        (dt.filter fun d => !d.isEmpty) ++ [m] := by
      rw [List.filter_append]
      simp [List.filter, h]
    have hne : (dt ++ [m]).filter (fun d => !d.isEmpty) ≠ [] := by
      rw [hfapp]
      exact fun hc => List.append_ne_nil_of_right_ne_nil _ (by simp) hc
    rw [addDict, if_neg (by rw [h]; simp), init_dicts hne, hfapp]

/-- Witness for C8 (amended) at concrete inputs: adding an empty dict is
the identity; adding `{1: 2}` to `DictTuple({0: 1})` yields the two layers
`[{0: 1}, {1: 2}]`. -/
theorem addDict_spec_witness :
    addDict [[((0 : Nat), (1 : Nat))]] [] = Except.ok [[(0, 1)]] ∧
    addDict [[((0 : Nat), (1 : Nat))]] [(1, 2)] = Except.ok [[(0, 1)], [(1, 2)]] :=
  ⟨(addDict_spec [[((0 : Nat), (1 : Nat))]] []).1 rfl,
   (addDict_spec [[((0 : Nat), (1 : Nat))]] [(1, 2)]).2 rfl⟩

/-- C5: for every DictTuple `d` and plain dict `m`, `d == m` is true if and
only if every key visible in `d` (union of all layers) is a key of `m` and
`d`'s shadow-resolved value for it equals `m`'s value; `m` may hold extra
keys absent from `d` and equality can still hold. -/
theorem eqDict_spec (dt : List (Dict K V)) (m : Dict K V) :
    eqDict dt m = true ↔
      ∀ k : K, containsKey dt k = true →
        Dict.hasKey m k = true ∧
        ∃ v : V, getItem dt k = Except.ok v ∧ Dict.get? m k = some v := by
  rw [eqDict, Bool.and_eq_true, List.all_eq_true, List.all_eq_true]
  constructor
  · rintro ⟨hsub, hval⟩ k hck
    have hk : k ∈ allKeysList dt := (mem_allKeysList dt k).mpr hck
    refine ⟨hsub k hk, ?_⟩
    obtain ⟨v, hv⟩ := getItem_isOk_of_containsKey hck
    obtain ⟨w, hw⟩ := (hasKey_iff_get?_isSome m k).mp (hsub k hk)
    have := hval k hk
    rw [hv, hw] at this
    simp only [decide_eq_true_eq] at this
    exact ⟨v, hv, by rw [hw, this]⟩
  · intro h
    constructor
    · intro k hk
      exact (h k ((mem_allKeysList dt k).mp hk)).1
    · intro k hk
      obtain ⟨-, v, hok, hget⟩ := h k ((mem_allKeysList dt k).mp hk)
      rw [hok, hget]
      simp

/-- Witness for C5 at a concrete input: `DictTuple({0: 7}) == {0: 7, 1: 8}`
is true, and the characterization instantiated at key `0` yields the
resolved value `7` on both sides. -/
theorem eqDict_spec_witness :
    Dict.hasKey [((0 : Nat), (7 : Nat)), (1, 8)] 0 = true ∧
    ∃ v, getItem [[((0 : Nat), (7 : Nat))]] 0 = Except.ok v ∧
      Dict.get? [((0 : Nat), (7 : Nat)), (1, 8)] 0 = some v :=
  (eqDict_spec [[((0 : Nat), (7 : Nat))]] [(0, 7), (1, 8)]).mp (by decide) 0 (by decide)

/-- C9: iterating a DictTuple yields exactly the distinct keys visible
across all layers — the key set counted by `len` — each exactly once, in
ascending sorted order, as a finite restartable list. -/
theorem iterKeys_spec [LinearOrder K] (dt : List (Dict K V)) :
    (iterKeys dt).Sorted (· ≤ ·) ∧
    (iterKeys dt).Nodup ∧
    (∀ k : K, k ∈ iterKeys dt ↔ containsKey dt k = true) ∧
    (iterKeys dt).length = lenKeys dt := by
  refine ⟨List.sorted_insertionSort _ _, ?_, ?_, ?_⟩
  · exact (List.perm_insertionSort _ _).symm.nodup (List.nodup_dedup _)
  · intro k
    rw [iterKeys, List.mem_insertionSort, List.mem_dedup, mem_allKeysList]
  · rw [iterKeys, List.length_insertionSort, lenKeys, List.card_toFinset]
    rfl

/-- Witness for C9 at a concrete input: with layers `[{1: 10}, {0: 20}]`,
the key `0` is enumerated (and, per the order part of the theorem, the
enumeration is sorted and duplicate-free). -/
theorem iterKeys_spec_witness :
    (0 : Nat) ∈ iterKeys [[((1 : Nat), (10 : Nat))], [(0, 20)]] :=
  ((iterKeys_spec [[((1 : Nat), (10 : Nat))], [(0, 20)]]).2.2.1 0).mpr (by decide)

/-- `DictTuple.__getitem__` expressed through the reversed value chain:
it returns the head of the values of the reversed layer list. -/
theorem getRev_eq_head (l : List (Dict K V)) (k : K) :
    getRev l k =
      match (l.filterMap fun d => Dict.get? d k).head? with
      | some v => Except.ok v
      | none => Except.error Err.keyError := by
  induction l with
  | nil => rfl
  | cons d rest ih =>
    rw [getRev, List.filterMap_cons]
    cases hg : Dict.get? d k with
    | none => simpa using ih
    | some v => simp

/-- C10: the get-all call `d(k)` returns a non-empty list exactly when some
layer of `d` contains `k` (and `[]` otherwise, never an error); whenever
`k` is present, the shadowed get `d[k]` returns the LAST element of `d(k)`:
the chain is ordered oldest to latest, so its final element is the
shadowing winner. -/
theorem callAll_spec (dt : List (Dict K V)) (k : K) :
    (callAll dt k ≠ [] ↔ containsKey dt k = true) ∧
    (containsKey dt k = true →
      ∃ v : V, (callAll dt k).getLast? = some v ∧ getItem dt k = Except.ok v) := by
  have hlast : getItem dt k =
      match (callAll dt k).getLast? with
      | some v => Except.ok v
      | none => Except.error Err.keyError := by
    rw [getItem, getRev_eq_head, callAll, ← List.head?_reverse, List.filterMap_reverse]
  constructor
  · rw [callAll, ne_eq, List.filterMap_eq_nil_iff]
    constructor
    · intro h
      cases hc : containsKey dt k with
      | true => rfl
      | false =>
        exfalso
        exact h fun d hd =>
          get?_eq_none_of_not_hasKey ((containsKey_eq_false_iff dt k).mp hc d hd)
    · intro hc h
      obtain ⟨d, hd, hk⟩ := (containsKey_eq_true_iff dt k).mp hc
      obtain ⟨v, hv⟩ := (hasKey_iff_get?_isSome d k).mp hk
      rw [h d hd] at hv
      cases hv
  · intro hc
    obtain ⟨v, hv⟩ := getItem_isOk_of_containsKey hc
    cases hg : (callAll dt k).getLast? with
    | none => rw [hlast, hg] at hv; cases hv
    | some w => exact ⟨w, rfl, by rw [hlast, hg]⟩

/-- Witness for C10 at concrete inputs: with layers `[{0: 1}, {0: 2}]` the
chain for key `0` ends in `2`, which is what the shadowed get returns. -/
theorem callAll_spec_witness :
    ∃ v, (callAll [[((0 : Nat), (1 : Nat))], [(0, 2)]] 0).getLast? = some v ∧
      getItem [[((0 : Nat), (1 : Nat))], [(0, 2)]] 0 = Except.ok v :=
  (callAll_spec [[((0 : Nat), (1 : Nat))], [(0, 2)]] 0).2 (by decide)
